import Mathlib

/-!
# Verification of the f1viewer tree population / episode organizing engine

Shallow embedding of the Go sources of marcusmoore/f1viewer (main.go and the
utility file).  Go strings are modelled as lists of characters (`GoString`);
for the ASCII identifiers handled by this program, Go's byte-wise operations
(slicing, lexicographic comparison) coincide with the character-wise
operations used here (UTF-8 byte order agrees with code-point order).
Go panics (out-of-range slices, indexing an empty slice) are modelled by
`Option`/`none`; a `none` result of a whole operation models a process crash.
-/

/-!
## Definitions: the embedded program
-/

/-- Model of a Go string: its sequence of characters. -/
abbrev GoString := List Char

/-- Go lexicographic string comparison `a < b` (byte order; equals
code-point order for valid UTF-8). -/
def goStrLt : GoString → GoString → Bool
  | [], [] => false
  | [], _ :: _ => true
  | _ :: _, [] => false
  | a :: as, b :: bs => if a < b then true else if b < a then false else goStrLt as bs

/-- Value of a sequence of decimal digit characters (as read by Go's
`strconv.Atoi` after sign handling). -/
def digitsToNat (l : List Char) : Nat :=
  l.foldl (fun acc c => 10 * acc + (c.toNat - 48)) 0

/-- Parse an unsigned decimal digit string; `none` on empty or non-digit input. -/
def parseNat (l : GoString) : Option Nat :=
  if l ≠ [] ∧ l.all Char.isDigit then some (digitsToNat l) else none

/-- Model of Go `strconv.Atoi`: optional sign followed by decimal digits.
(Overflow is irrelevant here: the program only applies it to 2- and
4-character slices.) -/
def goAtoi (l : GoString) : Option Int :=
  match l with
  | [] => none
  | c :: rest =>
      if c = '+' then (parseNat rest).map Int.ofNat
      else if c = '-' then (parseNat rest).map (fun n => -(n : Int))
      else (parseNat l).map Int.ofNat

/-- Model of Go `strconv.Itoa`. -/
def goItoa (n : Int) : GoString :=
  if n < 0 then '-' :: Nat.toDigits 10 n.natAbs else Nat.toDigits 10 n.toNat

/-- Go's `sort.Slice` inserts each element into the sorted prefix to its
left, scanning from the right and swapping while `less` holds
(`insertionSort` in Go's sort package, the algorithm actually run for the
slice lengths of interest; any comparison sort agrees with it whenever
`less` is a strict weak order).  The element `x` ends up immediately before
the longest suffix whose members `z` all satisfy `less x z`. -/
def insertIntoSorted (less : α → α → Bool) (x : α) : List α → List α
  | [] => [x]
  | y :: ys =>
      if (y :: ys).all (fun z => less x z) then x :: y :: ys
      else y :: insertIntoSorted less x ys

/-- Model of Go `sort.Slice`: left-to-right insertion sort. -/
def goSort (less : α → α → Bool) (l : List α) : List α :=
  l.foldl (fun acc x => insertIntoSorted less x acc) []

/-- Episode record; `DataSourceID` is the source identifier whose leading
four characters encode year and race. -/
structure episodeStruct where
  Title : GoString
  Subtitle : GoString
  Synopsis : GoString
  DataSourceID : GoString
  DriverUrls : List GoString
  TeamUrls : List GoString
  Items : List GoString
deriving DecidableEq

structure driverStruct where
  FirstName : GoString
  LastName : GoString
  DriverRacingnumber : Int
deriving DecidableEq

structure teamStruct where
  Name : GoString
deriving DecidableEq

structure eventStruct where
  OfficialName : GoString
  SessionoccurrenceUrls : List GoString
deriving DecidableEq

structure seasonStruct where
  Name : GoString
  EventoccurrenceUrls : List GoString
deriving DecidableEq

structure sessionStruct where
  Name : GoString
  Status : GoString
  Slug : GoString
deriving DecidableEq

structure channelUrlsStruct where
  Name : GoString
  Self : GoString
  DriverUrls : List driverStruct
deriving DecidableEq

structure sessionAssetStruct where
  ChannelUrls : List channelUrlsStruct
deriving DecidableEq

structure sessionStreamsStruct where
  Objects : List sessionAssetStruct
deriving DecidableEq

/-- main.go `getYearAndRace`: takes a year/race ID and returns full year and
race number as strings.  `input[:2]` / `input[2:4]` are total here
(truncating); in Go they panic below length 4 — every call site in main.go
reaches this function only for identifiers whose four leading characters
were successfully parsed by `strconv.Atoi`, hence of length at least 4,
where slicing and truncation agree. -/
def getYearAndRace (input : GoString) : GoString × GoString :=
  let year := input.take 2
  let intYear := (goAtoi year).getD 0
  let fullYear := if intYear < 30 then ("20").data ++ year else ("19").data ++ year
  let raceNumber := (input.drop 2).take 2
  (fullYear, raceNumber)

/-- The second, guarded `getYearAndRace` of the utility file: rejects inputs
shorter than 4 characters or with a non-numeric leading 4-character token,
special-cases the literal tokens "2018" and "2019" (returning the sentinel
race number "0"), and otherwise computes year and race as the first
version does. -/
def getYearAndRaceV2 (input : GoString) : Except String (GoString × GoString) :=
  if input.length < 4 then .error "not long enough"
  else if (goAtoi (input.take 4)).isNone then .error "not a valid YearRaceID"
  else if input.take 4 = ("2018").data ∨ input.take 4 = ("2019").data then
    .ok (input.take 4, ("0").data)
  else
    let year := input.take 2
    let intYear := (goAtoi year).getD 0
    let fullYear := if intYear < 30 then ("20").data ++ year else ("19").data ++ year
    .ok (fullYear, (input.drop 2).take 2)

/-- The `sort.Slice` comparator of `addEpisodes` (main.go:643-655): if
either episode's leading 4 characters fail `strconv.Atoi`, compare titles;
otherwise compare (year, race) from `getYearAndRace` lexicographically. -/
def episodeLess (a b : episodeStruct) : Bool :=
  match goAtoi (a.DataSourceID.take 4), goAtoi (b.DataSourceID.take 4) with
  | some _, some _ =>
      let p1 := getYearAndRace a.DataSourceID
      let p2 := getYearAndRace b.DataSourceID
      goStrLt p1.1 p2.1 || (p1.1 == p2.1 && goStrLt p1.2 p2.2)
  | _, _ => goStrLt a.Title b.Title

/-- Derived year bucket of an episode (main.go:664-671): identifiers whose
leading token is literally "2018" or "2019" keep that token; all others go
through `getYearAndRace`. -/
def bucketYear (yearRaceID dataSourceID : GoString) : GoString :=
  if yearRaceID ≠ ("2018").data ∧ yearRaceID ≠ ("2019").data then
    (getYearAndRace dataSourceID).1
  else yearRaceID

/-- Attach an episode to the year node with reference `year`, creating the
year node (appended after the existing children) when absent
(main.go:673-691). -/
def addToBucket : List (GoString × List episodeStruct) → GoString → episodeStruct →
    List (GoString × List episodeStruct)
  | [], y, e => [(y, [e])]
  | (y', es) :: rest, y, e =>
      if y' = y then (y', es ++ [e]) :: rest else (y', es) :: addToBucket rest y e

/-- The attach loop of `addEpisodes` (main.go:657-701) over the sorted
episode list: slices `DataSourceID[:4]` (panic, i.e. `none`, below length
4), buckets episodes with numeric leading tokens by derived year and
appends the rest to the residual list in order. -/
def attachEpisodes : List episodeStruct → List (GoString × List episodeStruct) →
    List episodeStruct → Option (List (GoString × List episodeStruct) × List episodeStruct)
  | [], buckets, residual => some (buckets, residual)
  | ep :: rest, buckets, residual =>
      if 4 ≤ ep.DataSourceID.length then
        let yearRaceID := ep.DataSourceID.take 4
        match goAtoi yearRaceID with
        | some _ =>
            attachEpisodes rest (addToBucket buckets (bucketYear yearRaceID ep.DataSourceID) ep) residual
        | none => attachEpisodes rest buckets (residual ++ [ep])
      else none

/-- Organizing phase of `addEpisodes`: sort with `episodeLess`, then run the
attach loop on an initially childless category node. -/
def addEpisodes (eps : List episodeStruct) :
    Option (List (GoString × List episodeStruct) × List episodeStruct) :=
  attachEpisodes (goSort episodeLess eps) [] []

/-- Numeric value of the first two (digit) characters of an identifier, as
the spec reads them. -/
def twoDigitValue : GoString → Nat
  | c0 :: c1 :: _ => 10 * (c0.toNat - 48) + (c1.toNat - 48)
  | _ => 0

/-- Lexicographic comparison of (year, race) string pairs, as performed by
the `addEpisodes` sort comparator. -/
def pairStrLt (p q : GoString × GoString) : Bool :=
  goStrLt p.1 q.1 || (p.1 == q.1 && goStrLt p.2 q.2)

/-- An episode identifier that the organizer can parse: long enough to
slice and with a numeric leading token. -/
def epParses (e : episodeStruct) : Prop :=
  4 ≤ e.DataSourceID.length ∧ (goAtoi (e.DataSourceID.take 4)).isSome = true

instance (e : episodeStruct) : Decidable (epParses e) := by
  unfold epParses
  infer_instance

/-- The within-bucket order relation of the claim: the earlier episode's
(year, race) pair is not lexicographically above the later one's. -/
def epPairLe (a b : episodeStruct) : Prop :=
  pairStrLt (getYearAndRace b.DataSourceID) (getYearAndRace a.DataSourceID) = false

def epA : episodeStruct := ⟨("A").data, [], [], ("misc").data, [], [], []⟩

def ep0503 : episodeStruct := ⟨("B").data, [], [], ("0503").data, [], [], []⟩

def epC : episodeStruct := ⟨("C").data, [], [], ("misc").data, [], [], []⟩

def ep0501 : episodeStruct := ⟨("D").data, [], [], ("0501").data, [], [], []⟩

/-- Driver display name prefix (main.go:747-754): two-digit numbers get no
leading space, single-digit (and smaller) numbers get one. -/
def addNumberToName (number : Int) (name : GoString) : GoString :=
  if 10 ≤ number then ("(").data ++ goItoa number ++ (") ").data ++ name
  else (" (").data ++ goItoa number ++ (") ").data ++ name

/-- main.go:429: racing number plus first and last name. -/
def driverDisplayName (d : driverStruct) : GoString :=
  addNumberToName d.DriverRacingnumber (d.FirstName ++ (" ").data ++ d.LastName)

/-- First-match lookup in an association-list model of a Go map with unique
keys (the caches only ever append a key they did not find). -/
def assocFind (cache : List (GoString × β)) (id : GoString) : Option β :=
  match cache with
  | [] => none
  | (k, v) :: rest => if k = id then some v else assocFind rest id

/-- Resolution loop of `getDriverNames` (main.go:413-434): per identifier,
consult the driver cache, fetch and store on a miss, and replace the line
with the display name.  The per-identifier goroutines are serialized in
list order; after the `WaitGroup` join every processed identifier is in the
cache, which is what the cross-call claims rely on.  Returns (names,
updated cache, identifiers fetched remotely, in order). -/
def getDriverNamesAux (getDriver : GoString → driverStruct) :
    List GoString → List (GoString × driverStruct) →
    List GoString × List (GoString × driverStruct) × List GoString
  | [], cache => ([], cache, [])
  | id :: rest, cache =>
      match assocFind cache id with
      | some d =>
          let r := getDriverNamesAux getDriver rest cache
          (driverDisplayName d :: r.1, r.2)
      | none =>
          let d := getDriver id
          let r := getDriverNamesAux getDriver rest (cache ++ [(id, d)])
          (driverDisplayName d :: r.1, r.2.1, id :: r.2.2)

/-- main.go:409-438 `getDriverNames`: resolve all lines, then
`sort.Strings` the result. -/
def getDriverNames (getDriver : GoString → driverStruct) (lines : List GoString)
    (cache : List (GoString × driverStruct)) :
    List GoString × List (GoString × driverStruct) × List GoString :=
  let r := getDriverNamesAux getDriver lines cache
  (goSort goStrLt r.1, r.2)

/-- Resolution loop of `getTeamNames` (main.go:445-463): like the driver
loop but the line becomes the plain team name. -/
def getTeamNamesAux (getTeam : GoString → teamStruct) :
    List GoString → List (GoString × teamStruct) →
    List GoString × List (GoString × teamStruct) × List GoString
  | [], cache => ([], cache, [])
  | id :: rest, cache =>
      match assocFind cache id with
      | some t =>
          let r := getTeamNamesAux getTeam rest cache
          (t.Name :: r.1, r.2)
      | none =>
          let t := getTeam id
          let r := getTeamNamesAux getTeam rest (cache ++ [(id, t)])
          (t.Name :: r.1, r.2.1, id :: r.2.2)

/-- main.go:441-467 `getTeamNames`. -/
def getTeamNames (getTeam : GoString → teamStruct) (lines : List GoString)
    (cache : List (GoString × teamStruct)) :
    List GoString × List (GoString × teamStruct) × List GoString :=
  let r := getTeamNamesAux getTeam lines cache
  (goSort goStrLt r.1, r.2)

/-- main.go:396-406 `convertIDs`: kind dispatch on the first identifier.
Note the mismatched prefix-length checks taken verbatim from the source:
the driver branch tests `len(lines[0]) > 12` against the 12-character
prefix "/api/driver/", while the team branch also tests
`len(lines[0]) > 12` although its prefix "/api/team/" is 10 characters
long. -/
def convertIDs (getDriver : GoString → driverStruct) (getTeam : GoString → teamStruct)
    (dCache : List (GoString × driverStruct)) (tCache : List (GoString × teamStruct))
    (lines : List GoString) :
    List GoString × List (GoString × driverStruct) × List (GoString × teamStruct) :=
  match lines with
  | [] => ([], dCache, tCache)
  | l0 :: rest =>
      if 12 < l0.length ∧ l0.take 12 = ("/api/driver/").data then
        let r := getDriverNames getDriver (l0 :: rest) dCache
        (r.1, r.2.1, tCache)
      else if 12 < l0.length ∧ l0.take 10 = ("/api/team/").data then
        let r := getTeamNames getTeam (l0 :: rest) tCache
        (r.1, dCache, r.2.1)
      else (l0 :: rest, dCache, tCache)

/-- A concrete remote-catalog oracle for teams, for counterexamples. -/
def teamOracle : GoString → teamStruct := fun _ => ⟨("Ferrari").data⟩

/-- A concrete remote-catalog oracle for drivers, for counterexamples. -/
def driverOracle : GoString → driverStruct :=
  fun _ => ⟨("Max").data, ("Verstappen").data, 33⟩

/-- The name an identifier resolves to, as a function of the starting
cache: the cached record if present, otherwise the freshly fetched one. -/
def resolveDriverName (getDriver : GoString → driverStruct)
    (cache : List (GoString × driverStruct)) (id : GoString) : GoString :=
  driverDisplayName ((assocFind cache id).getD (getDriver id))

/-- The tcell colors the selection handlers assign. -/
inductive GoColor
  | defaultColor | yellow | red | white | green | blue | wheat
deriving DecidableEq

structure PerspectiveNode where
  text : GoString
deriving DecidableEq

structure SessionNode where
  text : GoString
  color : GoColor
  children : List PerspectiveNode
deriving DecidableEq

structure EventNode where
  text : GoString
  reference : eventStruct
deriving DecidableEq

structure TreeNodeModel where
  text : GoString
  color : GoColor
  selectable : Bool
deriving DecidableEq

/-- Display name of a perspective (main.go:548-564): racing number prefix
when driver-bound, then the channel-name rewrites. -/
def perspectiveName (p : channelUrlsStruct) : GoString :=
  let name := p.Name
  let name :=
    match p.DriverUrls with
    | d :: _ => addNumberToName d.DriverRacingnumber name
    | [] => name
  if name = ("WIF").data then ("Main Feed").data
  else if name = ("pit lane").data then ("Pit Lane").data
  else if name = ("driver").data then ("Driver Tracker").data
  else if name = ("data").data then ("Data Channel").data
  else name

/-- Model of Go `strings.Contains s sub`. -/
def goContains (s sub : GoString) : Bool :=
  match s with
  | [] => sub.isEmpty
  | _ :: rest => List.isPrefixOf sub s || goContains rest sub

/-- main.go:542-578 `getPerspectiveNodes`: one node per stream, then the
source's `sort.Slice` whose comparator only inspects the left element. -/
def getPerspectiveNodes (perspectives : List channelUrlsStruct) : List PerspectiveNode :=
  goSort (fun a _ => !(goContains a.text (("(").data)))
    (perspectives.map (fun p => ⟨perspectiveName p⟩))

/-- One iteration of the session loop (main.go:513-535): skip sessions with
status "upcoming" (inner `none`); otherwise fetch the session streams and
build the node with its perspective children.  `Objects[0]` on an empty
streams payload is a Go panic (outer `none`). -/
def buildSessionNode (getSession : GoString → sessionStruct)
    (getSessionStreams : GoString → sessionStreamsStruct) (sessionID : GoString) :
    Option (Option SessionNode) :=
  let session := getSession sessionID
  if session.Status ≠ ("upcoming").data then
    let streams := getSessionStreams session.Slug
    match streams.Objects with
    | [] => none
    | obj :: _ =>
        let text := if session.Status = ("live").data then
          session.Name ++ (" - LIVE").data else session.Name
        let color := if session.Status = ("live").data then GoColor.red
          else GoColor.defaultColor
        some (some ⟨text, color, getPerspectiveNodes obj.ChannelUrls⟩)
  else some none

/-- main.go:508-539 `getSessionNodes`: the per-session workers fill a slice
indexed by URL position; entries for skipped sessions stay nil. -/
def getSessionNodes (getSession : GoString → sessionStruct)
    (getSessionStreams : GoString → sessionStreamsStruct) (event : eventStruct) :
    Option (List (Option SessionNode)) :=
  event.SessionoccurrenceUrls.mapM (buildSessionNode getSession getSessionStreams)

/-- main.go:485-505 `getEventNodes`: one slot per event URL; events with no
saved sessions leave their slot nil. -/
def getEventNodes (getEvent : GoString → eventStruct) (season : seasonStruct) :
    List (Option EventNode) :=
  season.EventoccurrenceUrls.map (fun id =>
    let event := getEvent id
    if 0 < event.SessionoccurrenceUrls.length then some ⟨event.OfficialName, event⟩
    else none)

/-- Season-selection branch (main.go:178-188): attaches every entry of
`getEventNodes` — including the nil placeholders left by events without
sessions — and never changes the node's own text, color or selectability. -/
def expandSeasonNode (getEvent : GoString → eventStruct) (node : TreeNodeModel)
    (children : List (Option EventNode)) (season : seasonStruct) :
    TreeNodeModel × List (Option EventNode) :=
  (node, children ++ getEventNodes getEvent season)

/-- Event-selection branch (main.go:155-177): attaches only the non-nil
session nodes that have children; when none exists the node turns red,
gains the " - NO CONTENT AVAILABLE" suffix and becomes unselectable. -/
def expandEventNode (getSession : GoString → sessionStruct)
    (getSessionStreams : GoString → sessionStreamsStruct)
    (node : TreeNodeModel) (children : List SessionNode) (event : eventStruct) :
    Option (TreeNodeModel × List SessionNode) :=
  match getSessionNodes getSession getSessionStreams event with
  | none => none
  | some sessions =>
      let valid := (sessions.filterMap id).filter (fun s => 0 < s.children.length)
      if valid.isEmpty then
        some (⟨node.text ++ (" - NO CONTENT AVAILABLE").data, GoColor.red, false⟩,
          children ++ valid)
      else some (node, children ++ valid)

/-- Event oracle returning an event with no saved sessions. -/
def emptyEventOracle : GoString → eventStruct := fun _ => ⟨("Australian GP").data, []⟩

/-- A season holding a single event URL whose event has no sessions. -/
def seasonOneEmptyEvent : seasonStruct := ⟨("2019").data, [("ev1").data]⟩

/-- A season with no event occurrences at all. -/
def seasonNoEvents : seasonStruct := ⟨("1990").data, []⟩

/-- Session oracle whose sessions are all upcoming. -/
def upcomingSessionOracle : GoString → sessionStruct :=
  fun _ => ⟨("Race").data, ("upcoming").data, ("race-slug").data⟩

/-- Streams oracle with an empty payload (never reached for upcoming
sessions). -/
def emptyStreamsOracle : GoString → sessionStreamsStruct := fun _ => ⟨[]⟩

/-- An event whose only session is upcoming. -/
def eventOneUpcoming : eventStruct := ⟨("Bahrain GP").data, [("s1").data]⟩

/-- Model of Go `strings.Replace(s, old, new, -1)`: replace every
non-overlapping occurrence left to right.  (`old` empty is never used by
the dispatcher and is treated as the identity here.) -/
def goReplaceAll (old new : GoString) : GoString → GoString
  | [] => []
  | c :: rest =>
      if _hp : old ≠ [] ∧ List.isPrefixOf old (c :: rest) then
        new ++ goReplaceAll old new ((c :: rest).drop old.length)
      else c :: goReplaceAll old new rest
termination_by s => s.length
decreasing_by
  · simp only [List.length_drop, List.length_cons]
    have h1 : 1 ≤ old.length := List.length_pos.mpr _hp.1
    omega
  · simp only [List.length_cons]
    omega

/-- The dispatch-local download state: Go's `fileLoaded` and `filepath`
variables, plus a count of `downloadAsset` calls. -/
structure DispatchSt where
  fileLoaded : Bool
  filepath : GoString
  downloads : Nat
deriving DecidableEq

/-- Token substitution (main.go:206-216): a token containing "$file" first
triggers the memoized asset download, then has "$file" replaced by the
local path; every token finally has "$url" replaced by the resolved URL. -/
def substToken (url dlPath : GoString) (st : DispatchSt) (tok : GoString) :
    GoString × DispatchSt :=
  let r :=
    if goContains tok (("$file").data) then
      let st := if st.fileLoaded = false then
        ⟨true, dlPath, st.downloads + 1⟩ else st
      (goReplaceAll (("$file").data) st.filepath tok, st)
    else (tok, st)
  (goReplaceAll (("$url").data) url r.1, r.2)

/-- Substitution over one command template's tokens, in order. -/
def substCommand (url dlPath : GoString) (st : DispatchSt) :
    List GoString → List GoString × DispatchSt
  | [] => ([], st)
  | tok :: rest =>
      let r := substToken url dlPath st tok
      let rr := substCommand url dlPath r.2 rest
      (r.1 :: rr.1, rr.2)

/-- The dispatch loop (main.go:200-229): substitute and run every nonempty
command; `fileLoaded`/`filepath` memoize the download across commands. -/
def dispatchCommands (url dlPath : GoString) (st : DispatchSt) :
    List (List GoString) → List (List GoString) × DispatchSt
  | [] => ([], st)
  | cmd :: rest =>
      if cmd.isEmpty then dispatchCommands url dlPath st rest
      else
        let r := substCommand url dlPath st cmd
        let rr := dispatchCommands url dlPath r.2 rest
        (r.1 :: rr.1, rr.2)

/-- One whole dispatch of a custom-command node selection, starting from
Go's zero-valued `fileLoaded`/`filepath`. -/
def runCustomCommand (url dlPath : GoString) (commands : List (List GoString)) :
    List (List GoString) × DispatchSt :=
  dispatchCommands url dlPath ⟨false, [], 0⟩ commands

/-- Observable actions during one expansion, after the fetch join. -/
inductive ExpAction
  | attach (i : Nat)
  | draw
  | markDone
deriving DecidableEq

/-- Worker actions (attaches and the done mark), as opposed to draws. -/
def isWorkerAct : ExpAction → Bool
  | .draw => false
  | _ => true

/-- The worker's own action sequence: attach children k, k+1, ... and then
mark loading done. -/
def workerSeq : Nat → Nat → List ExpAction
  | _, 0 => [.markDone]
  | k, n + 1 => .attach k :: workerSeq (k + 1) n

/-- A trace of one expansion attaching `n` children: any interleaving of
the worker sequence with draws of the busy-indicator goroutine. -/
def isExpansionTrace (n : Nat) (t : List ExpAction) : Prop :=
  t.filter isWorkerAct = workerSeq 0 n

instance (n : Nat) (t : List ExpAction) : Decidable (isExpansionTrace n t) := by
  unfold isExpansionTrace
  infer_instance

/-- The claim's all-or-nothing visibility: every draw observes either no
child or all `n` of them (`k` counts attaches so far). -/
def batchVisible (n : Nat) : Nat → List ExpAction → Bool
  | _, [] => true
  | k, .attach _ :: r => batchVisible n (k + 1) r
  | k, .markDone :: r => batchVisible n k r
  | k, .draw :: r => (k == 0 || k == n) && batchVisible n k r

/-- What does hold: every draw occurring after the done mark observes all
`n` children. -/
def postDoneFull (n : Nat) : Nat → Bool → List ExpAction → Bool
  | _, _, [] => true
  | k, seen, .attach _ :: r => postDoneFull n (k + 1) seen r
  | k, _, .markDone :: r => postDoneFull n k true r
  | k, seen, .draw :: r => (!seen || k == n) && postDoneFull n k seen r

/-!
## Theorems
-/

theorem goStrLt_asymm : ∀ {a b : GoString}, goStrLt a b = true → goStrLt b a = false
  | [], [], h => by simp [goStrLt] at h
  | [], _ :: _, _ => by simp [goStrLt]
  | _ :: _, [], h => by simp [goStrLt] at h
  | a :: as, b :: bs, h => by
      simp only [goStrLt] at h ⊢
      rcases lt_trichotomy a b with hab | hab | hab
      · simp [hab, not_lt_of_lt hab]
      · subst hab
        simp only [lt_irrefl, if_false] at h ⊢
        exact goStrLt_asymm h
      · simp [hab, not_lt_of_lt hab] at h

theorem goStrLt_trans : ∀ {a b c : GoString},
    goStrLt a b = true → goStrLt b c = true → goStrLt a c = true
  | [], [], _, h, _ => by simp [goStrLt] at h
  | [], _ :: _, [], _, h => by simp [goStrLt] at h
  | [], _ :: _, _ :: _, _, _ => by simp [goStrLt]
  | _ :: _, [], _, h, _ => by simp [goStrLt] at h
  | _ :: _, _ :: _, [], _, h => by simp [goStrLt] at h
  | a :: as, b :: bs, c :: cs, h1, h2 => by
      simp only [goStrLt] at h1 h2 ⊢
      rcases lt_trichotomy a b with hab | hab | hab
      · rcases lt_trichotomy b c with hbc | hbc | hbc
        · simp [lt_trans hab hbc, not_lt_of_lt (lt_trans hab hbc)]
        · subst hbc; simp [hab, not_lt_of_lt hab]
        · simp [hbc, not_lt_of_lt hbc] at h2
      · subst hab
        simp only [lt_irrefl, if_false] at h1
        rcases lt_trichotomy a c with hac | hac | hac
        · simp [hac, not_lt_of_lt hac]
        · subst hac
          simp only [lt_irrefl, if_false] at h2 ⊢
          exact goStrLt_trans h1 h2
        · simp [hac, not_lt_of_lt hac] at h2
      · simp [hab, not_lt_of_lt hab] at h1

theorem goStrLt_connex : ∀ {a b : GoString},
    goStrLt a b = false → goStrLt b a = false → a = b
  | [], [], _, _ => rfl
  | [], _ :: _, h, _ => by simp [goStrLt] at h
  | _ :: _, [], _, h => by simp [goStrLt] at h
  | a :: as, b :: bs, h1, h2 => by
      simp only [goStrLt] at h1 h2
      rcases lt_trichotomy a b with hab | hab | hab
      · simp [hab] at h1
      · subst hab
        simp only [lt_irrefl, if_false] at h1 h2
        exact congrArg _ (goStrLt_connex h1 h2)
      · simp [hab] at h2

theorem insertIntoSorted_perm (less : α → α → Bool) (x : α) :
    ∀ ys : List α, (insertIntoSorted less x ys).Perm (x :: ys)
  | [] => List.Perm.refl _
  | y :: ys => by
      simp only [insertIntoSorted]
      split
      · exact List.Perm.refl _
      · exact ((insertIntoSorted_perm less x ys).cons y).trans (List.Perm.swap x y ys)

theorem goSort_aux_perm (less : α → α → Bool) :
    ∀ (l acc : List α), (l.foldl (fun acc x => insertIntoSorted less x acc) acc).Perm (acc ++ l)
  | [], acc => by simp
  | x :: l, acc => by
      refine (goSort_aux_perm less l (insertIntoSorted less x acc)).trans ?_
      exact ((insertIntoSorted_perm less x acc).append_right l).trans List.perm_middle.symm

theorem goSort_perm (less : α → α → Bool) (l : List α) : (goSort less l).Perm l := by
  simpa using goSort_aux_perm less l []

theorem mem_insertIntoSorted {less : α → α → Bool} {x z : α} {ys : List α}
    (h : z ∈ insertIntoSorted less x ys) : z = x ∨ z ∈ ys := by
  have := (insertIntoSorted_perm less x ys).mem_iff.mp h
  simpa using this

theorem insertIntoSorted_pairwise {less : α → α → Bool} {P : α → Prop}
    (htrans : ∀ a b c, P a → P b → P c →
      less b a = false → less c b = false → less c a = false)
    (htotal : ∀ a b, P a → P b → less a b = false ∨ less b a = false)
    {x : α} (hx : P x) :
    ∀ {ys : List α}, (∀ y ∈ ys, P y) →
      ys.Pairwise (fun a b => less b a = false) →
      (insertIntoSorted less x ys).Pairwise (fun a b => less b a = false)
  | [], _, _ => by simp [insertIntoSorted]
  | y :: ys, hP, hsort => by
      simp only [insertIntoSorted]
      split
      · rename_i hall
        refine List.Pairwise.cons ?_ hsort
        intro z hz
        have hxz : less x z = true := by
          simpa using (List.all_eq_true.mp hall) z hz
        rcases htotal x z hx (hP z hz) with h | h
        · rw [hxz] at h; cases h
        · exact h
      · rename_i hnall
        rcases List.pairwise_cons.mp hsort with ⟨hy, hys⟩
        refine List.Pairwise.cons ?_
          (insertIntoSorted_pairwise htrans htotal hx (fun z hz => hP z (List.mem_cons_of_mem _ hz)) hys)
        intro z hz
        rcases mem_insertIntoSorted hz with hzx | hz'
        · -- z = x: show less x y = false, by contradiction via transitivity
          rw [hzx]
          by_contra hxy
          have hxy : less x y = true := by
            cases h : less x y with
            | false => exact absurd h hxy
            | true => rfl
          -- not all of y :: ys satisfies less x ·, but y does, so some w in ys fails
          have : ∃ w ∈ ys, ¬ less x w = true := by
            by_contra hc
            push_neg at hc
            exact hnall (List.all_eq_true.mpr (by
              intro w hw
              rcases List.mem_cons.mp hw with rfl | hw'
              · simpa using hxy
              · simpa using hc w hw'))
          rcases this with ⟨w, hw, hxw⟩
          have hxw : less x w = false := by
            cases h : less x w with
            | true => exact absurd h hxw
            | false => rfl
          have hwy : less w y = false := hy w hw
          have : less x y = false :=
            htrans y w x (hP y (List.mem_cons_self y ys)) (hP w (List.mem_cons_of_mem _ hw)) hx hwy hxw
          rw [hxy] at this; cases this
        · exact hy z hz'

theorem goSort_pairwise {less : α → α → Bool} {P : α → Prop}
    (htrans : ∀ a b c, P a → P b → P c →
      less b a = false → less c b = false → less c a = false)
    (htotal : ∀ a b, P a → P b → less a b = false ∨ less b a = false)
    {l : List α} (hl : ∀ a ∈ l, P a) :
    (goSort less l).Pairwise (fun a b => less b a = false) := by
  suffices h : ∀ (l acc : List α), (∀ a ∈ l, P a) → (∀ a ∈ acc, P a) →
      acc.Pairwise (fun a b => less b a = false) →
      (l.foldl (fun acc x => insertIntoSorted less x acc) acc).Pairwise
        (fun a b => less b a = false) by
    exact h l [] hl (by simp) (by simp)
  intro l
  induction l with
  | nil => intro acc _ _ hs; simpa using hs
  | cons x l ih =>
      intro acc hlP haccP hs
      refine ih _ (fun a ha => hlP a (List.mem_cons_of_mem _ ha)) ?_
        (insertIntoSorted_pairwise htrans htotal (hlP x (List.mem_cons_self x l)) haccP hs)
      intro a ha
      rcases mem_insertIntoSorted ha with rfl | ha'
      · exact hlP a (List.mem_cons_self a l)
      · exact haccP a ha'

theorem digit_ne_sign {c : Char} (h : c.isDigit = true) : c ≠ '+' ∧ c ≠ '-' := by
  constructor <;> rintro rfl <;> exact absurd h (by decide)

theorem goAtoi_digits (l : GoString) (hne : l ≠ []) (hd : l.all Char.isDigit = true) :
    goAtoi l = some (Int.ofNat (digitsToNat l)) := by
  match l, hne with
  | c :: rest, _ =>
    have hc : c.isDigit = true := by
      simpa using List.all_eq_true.mp hd c (List.mem_cons_self c rest)
    rcases digit_ne_sign hc with ⟨hp, hm⟩
    simp [goAtoi, hp, hm, parseNat, hd]

theorem goAtoi_two_digits (c0 c1 : Char) (h0 : c0.isDigit = true) (h1 : c1.isDigit = true) :
    goAtoi [c0, c1] = some (Int.ofNat (10 * (c0.toNat - 48) + (c1.toNat - 48))) := by
  have hd : digitsToNat [c0, c1] = 10 * (c0.toNat - 48) + (c1.toNat - 48) := by
    simp only [digitsToNat, List.foldl]
    omega
  rw [goAtoi_digits [c0, c1] (by simp) (by simp [h0, h1]), hd]

theorem getYearAndRace_digits (c0 c1 : Char) (rest : GoString)
    (h0 : c0.isDigit = true) (h1 : c1.isDigit = true) :
    getYearAndRace (c0 :: c1 :: rest) =
      ((if 10 * (c0.toNat - 48) + (c1.toNat - 48) < 30 then ("20").data else ("19").data)
        ++ [c0, c1], rest.take 2) := by
  simp only [getYearAndRace]
  rw [show (c0 :: c1 :: rest).take 2 = [c0, c1] from rfl,
      show (c0 :: c1 :: rest).drop 2 = rest from rfl,
      goAtoi_two_digits c0 c1 h0 h1]
  simp only [Option.getD_some]
  by_cases h : 10 * (c0.toNat - 48) + (c1.toNat - 48) < 30
  · rw [if_pos (show Int.ofNat (10 * (c0.toNat - 48) + (c1.toNat - 48)) < 30 from
        Int.ofNat_lt.mpr h), if_pos h]
  · rw [if_neg (show ¬ Int.ofNat (10 * (c0.toNat - 48) + (c1.toNat - 48)) < 30 from
        fun hc => h (Int.ofNat_lt.mp hc)), if_neg h]

theorem getYearAndRaceV2_literal (input : GoString) (h4 : 4 ≤ input.length)
    (hsome : (goAtoi (input.take 4)).isSome = true)
    (h : input.take 4 = ("2018").data ∨ input.take 4 = ("2019").data) :
    getYearAndRaceV2 input = .ok (input.take 4, ("0").data) := by
  obtain ⟨v, hv⟩ := Option.isSome_iff_exists.mp hsome
  simp only [getYearAndRaceV2, hv]
  rw [if_neg (by omega)]
  simp only [Option.isNone_some, Bool.false_eq_true, if_false]
  rw [if_pos h]

theorem getYearAndRaceV2_else (input : GoString) (h4 : 4 ≤ input.length)
    (hsome : (goAtoi (input.take 4)).isSome = true)
    (h18 : input.take 4 ≠ ("2018").data) (h19 : input.take 4 ≠ ("2019").data) :
    getYearAndRaceV2 input = .ok (getYearAndRace input) := by
  obtain ⟨v, hv⟩ := Option.isSome_iff_exists.mp hsome
  simp only [getYearAndRaceV2, getYearAndRace, hv]
  rw [if_neg (by omega)]
  simp only [Option.isNone_some, Bool.false_eq_true, if_false]
  rw [if_neg (by rintro (h | h) <;> [exact h18 h; exact h19 h])]

/-- C1: For every episode source identifier whose first 4 characters are
decimal digits: if the leading token is literally "2018" or "2019", the
derived year bucket is exactly that token and the guarded parser returns it
with the constant sentinel race number "0"; otherwise the derived year is
"20"+first-two-digits when their value is below 30 and "19"+first-two-digits
from 30 up, and the race number is characters 3-4 of the identifier. -/
theorem yearRace_derivation (input : GoString) (h4 : 4 ≤ input.length)
    (hdig : (input.take 4).all Char.isDigit = true) :
    (input.take 4 = ("2018").data ∨ input.take 4 = ("2019").data →
      bucketYear (input.take 4) input = input.take 4 ∧
      getYearAndRaceV2 input = .ok (input.take 4, ("0").data))
    ∧ (input.take 4 ≠ ("2018").data → input.take 4 ≠ ("2019").data →
      bucketYear (input.take 4) input =
        (if twoDigitValue input < 30 then ("20").data else ("19").data) ++ input.take 2 ∧
      getYearAndRaceV2 input =
        .ok ((if twoDigitValue input < 30 then ("20").data else ("19").data) ++ input.take 2,
          (input.drop 2).take 2)) := by
  rcases input with _ | ⟨c0, input⟩
  · simp at h4
  rcases input with _ | ⟨c1, input⟩
  · simp at h4
  rcases input with _ | ⟨c2, input⟩
  · simp at h4
  rcases input with _ | ⟨c3, rest⟩
  · simp at h4
  have htake : (c0 :: c1 :: c2 :: c3 :: rest).take 4 = [c0, c1, c2, c3] := rfl
  rw [htake] at hdig ⊢
  simp only [List.all_cons, List.all_nil, Bool.and_true, Bool.and_eq_true] at hdig
  obtain ⟨h0, h1, h2, h3⟩ := hdig
  have hsome : (goAtoi ((c0 :: c1 :: c2 :: c3 :: rest).take 4)).isSome = true := by
    rw [htake, goAtoi_digits [c0, c1, c2, c3] (by simp) (by simp [h0, h1, h2, h3])]
    rfl
  constructor
  · intro h
    refine ⟨?_, by rw [← htake] at h; simpa [htake] using getYearAndRaceV2_literal _ (by simp) hsome h⟩
    rw [bucketYear, if_neg (by rintro ⟨hn1, hn2⟩; rcases h with h' | h'; exacts [hn1 h', hn2 h'])]
  · intro h18 h19
    have hv2 := getYearAndRaceV2_else (c0 :: c1 :: c2 :: c3 :: rest) (by simp)
      hsome (by rw [htake]; exact h18) (by rw [htake]; exact h19)
    have hyr := getYearAndRace_digits c0 c1 (c2 :: c3 :: rest) h0 h1
    have htwo : twoDigitValue (c0 :: c1 :: c2 :: c3 :: rest) =
        10 * (c0.toNat - 48) + (c1.toNat - 48) := rfl
    constructor
    · rw [bucketYear, if_pos ⟨h18, h19⟩, hyr, htwo]
      rfl
    · rw [hv2, hyr, htwo]
      rfl

/-- Witness for C1 at the concrete identifier "05010203". -/
theorem yearRace_derivation_witness :
    4 ≤ (("05010203").data : GoString).length ∧
    ((("05010203").data : GoString).take 4).all Char.isDigit = true ∧
    getYearAndRaceV2 ("05010203").data = .ok (("2005").data, ("01").data) := by
  refine ⟨by decide, by decide, ?_⟩
  have h := (yearRace_derivation ("05010203").data (by decide) (by decide)).2
    (by decide) (by decide)
  rw [h.2]
  rfl

/-- C10: the two `getYearAndRace` implementations agree on their common
domain: any input of length at least 4 whose leading four characters are
decimal digits and differ from the literal tokens "2018" and "2019" yields
the same (full year, race number) pair from both, and the guarded version
returns no error. -/
theorem getYearAndRace_versions_agree (input : GoString) (h4 : 4 ≤ input.length)
    (hdig : (input.take 4).all Char.isDigit = true)
    (h18 : input.take 4 ≠ ("2018").data) (h19 : input.take 4 ≠ ("2019").data) :
    getYearAndRaceV2 input = .ok (getYearAndRace input) := by
  have hne : input.take 4 ≠ [] := by
    rcases input with _ | ⟨c, t⟩
    · simp at h4
    · intro hx
      rw [show (c :: t).take 4 = c :: t.take 3 from rfl] at hx
      simp at hx
  exact getYearAndRaceV2_else input h4
    (by rw [goAtoi_digits _ hne hdig]; rfl) h18 h19

/-- Witness for C10 at the concrete identifier "99010203". -/
theorem getYearAndRace_versions_agree_witness :
    4 ≤ (("99010203").data : GoString).length ∧
    ((("99010203").data : GoString).take 4).all Char.isDigit = true ∧
    (("99010203").data : GoString).take 4 ≠ ("2018").data ∧
    (("99010203").data : GoString).take 4 ≠ ("2019").data ∧
    getYearAndRaceV2 ("99010203").data = .ok (getYearAndRace ("99010203").data) :=
  ⟨by decide, by decide, by decide, by decide,
    getYearAndRace_versions_agree ("99010203").data (by decide) (by decide)
      (by decide) (by decide)⟩

/-- C2: the episode organizer crashes on a source identifier shorter than 4
characters.  The claim (and the spec's hard invariant) says such an episode
degrades to residual placement and is never fatal, but `addEpisodes` slices
`DataSourceID[:4]` without a length guard (the comparator even carries the
comment "TODO: check that DataSourceID is long enough"), so Go panics with
a slice-bounds error — modelled here by the organizer returning `none`. -/
theorem addEpisodes_short_id_crash :
    addEpisodes [⟨("Season Review").data, [], [], ("abc").data, [], [], []⟩] = none := rfl

theorem goStrLt_irrefl (a : GoString) : goStrLt a a = false := by
  cases h : goStrLt a a with
  | false => rfl
  | true => have := goStrLt_asymm h; rw [h] at this; exact this

theorem goStrLt_false_trans {a b c : GoString}
    (hba : goStrLt b a = false) (hcb : goStrLt c b = false) : goStrLt c a = false := by
  cases h1 : goStrLt a b with
  | false => rw [goStrLt_connex h1 hba]; exact hcb
  | true =>
      cases h2 : goStrLt b c with
      | false => rw [← goStrLt_connex h2 hcb]; exact hba
      | true => exact goStrLt_asymm (goStrLt_trans h1 h2)

theorem pairStrLt_asymm {p q : GoString × GoString}
    (h : pairStrLt p q = true) : pairStrLt q p = false := by
  simp only [pairStrLt, Bool.or_eq_true, Bool.and_eq_true, beq_iff_eq] at h
  simp only [pairStrLt, Bool.or_eq_false_iff, Bool.and_eq_false_iff]
  rcases h with h | ⟨heq, h⟩
  · refine ⟨goStrLt_asymm h, Or.inl ?_⟩
    simp only [beq_eq_false_iff_ne, ne_eq]
    intro he
    rw [he] at h
    rw [goStrLt_irrefl] at h
    cases h
  · rw [heq]
    exact ⟨goStrLt_irrefl _, Or.inr (goStrLt_asymm h)⟩

theorem pairStrLt_false_trans {p q r : GoString × GoString}
    (hqp : pairStrLt q p = false) (hrq : pairStrLt r q = false) :
    pairStrLt r p = false := by
  simp only [pairStrLt, Bool.or_eq_false_iff, Bool.and_eq_false_iff] at hqp hrq ⊢
  refine ⟨goStrLt_false_trans hqp.1 hrq.1, ?_⟩
  cases heq : (r.1 == p.1) with
  | false => exact Or.inl rfl
  | true =>
      refine Or.inr ?_
      have hrp1 : r.1 = p.1 := beq_iff_eq.mp heq
      have hq1 : q.1 = p.1 := by
        refine goStrLt_connex hqp.1 ?_
        rw [← hrp1]
        exact hrq.1
      have h1 : goStrLt q.2 p.2 = false := by
        rcases hqp.2 with h | h
        · rw [hq1] at h; simp at h
        · exact h
      have h2 : goStrLt r.2 q.2 = false := by
        rcases hrq.2 with h | h
        · rw [hrp1, ← hq1] at h; simp at h
        · exact h
      exact goStrLt_false_trans h1 h2

theorem episodeLess_eq_pairStrLt {a b : episodeStruct}
    (ha : (goAtoi (a.DataSourceID.take 4)).isSome = true)
    (hb : (goAtoi (b.DataSourceID.take 4)).isSome = true) :
    episodeLess a b =
      pairStrLt (getYearAndRace a.DataSourceID) (getYearAndRace b.DataSourceID) := by
  obtain ⟨va, hva⟩ := Option.isSome_iff_exists.mp ha
  obtain ⟨vb, hvb⟩ := Option.isSome_iff_exists.mp hb
  simp [episodeLess, hva, hvb, pairStrLt]

theorem episodeLess_false_trans {a b c : episodeStruct}
    (ha : epParses a) (hb : epParses b) (hc : epParses c)
    (hba : episodeLess b a = false) (hcb : episodeLess c b = false) :
    episodeLess c a = false := by
  rw [episodeLess_eq_pairStrLt hb.2 ha.2] at hba
  rw [episodeLess_eq_pairStrLt hc.2 hb.2] at hcb
  rw [episodeLess_eq_pairStrLt hc.2 ha.2]
  exact pairStrLt_false_trans hba hcb

theorem episodeLess_total {a b : episodeStruct} (ha : epParses a) (hb : epParses b) :
    episodeLess a b = false ∨ episodeLess b a = false := by
  cases h : episodeLess a b with
  | false => exact Or.inl rfl
  | true =>
      refine Or.inr ?_
      rw [episodeLess_eq_pairStrLt ha.2 hb.2] at h
      rw [episodeLess_eq_pairStrLt hb.2 ha.2]
      exact pairStrLt_asymm h

theorem mem_addToBucket :
    ∀ {buckets : List (GoString × List episodeStruct)} {y : GoString} {e : episodeStruct}
      {y' : GoString} {bes' : List episodeStruct},
      (y', bes') ∈ addToBucket buckets y e →
      (y', bes') ∈ buckets ∨
        ∃ bes, bes' = bes ++ [e] ∧ ((y', bes) ∈ buckets ∨ bes = [])
  | [], y, e, y', bes', h => by
      simp only [addToBucket, List.mem_singleton, Prod.mk.injEq] at h
      exact Or.inr ⟨[], by simp [h.2], Or.inr rfl⟩
  | (y₀, es) :: rest, y, e, y', bes', h => by
      simp only [addToBucket] at h
      split at h
      · rcases List.mem_cons.mp h with h' | h'
        · rcases Prod.mk.injEq .. ▸ h' with ⟨h1, h2⟩
          exact Or.inr ⟨es, by simp [h2], Or.inl (by simp [h1])⟩
        · exact Or.inl (List.mem_cons_of_mem _ h')
      · rcases List.mem_cons.mp h with h' | h'
        · exact Or.inl (by simp [h'])
        · rcases mem_addToBucket h' with h'' | ⟨bes, hb1, hb2⟩
          · exact Or.inl (List.mem_cons_of_mem _ h'')
          · refine Or.inr ⟨bes, hb1, ?_⟩
            rcases hb2 with hb2 | hb2
            · exact Or.inl (List.mem_cons_of_mem _ hb2)
            · exact Or.inr hb2

theorem attachEpisodes_parses_inv :
    ∀ (S : List episodeStruct) (buckets : List (GoString × List episodeStruct))
      (residual : List episodeStruct),
      (∀ e ∈ S, epParses e) →
      S.Pairwise epPairLe →
      (∀ y bes, (y, bes) ∈ buckets →
        bes.Pairwise epPairLe ∧ ∀ e ∈ bes, ∀ e' ∈ S, epPairLe e e') →
      ∃ buckets', attachEpisodes S buckets residual = some (buckets', residual) ∧
        ∀ y bes, (y, bes) ∈ buckets' → bes.Pairwise epPairLe
  | [], buckets, residual, _, _, hacc => by
      refine ⟨buckets, rfl, fun y bes h => (hacc y bes h).1⟩
  | ep :: rest, buckets, residual, hS, hpair, hacc => by
      have hp : epParses ep := hS ep (List.mem_cons_self ep rest)
      obtain ⟨v, hv⟩ := Option.isSome_iff_exists.mp hp.2
      have hred : attachEpisodes (ep :: rest) buckets residual =
          attachEpisodes rest
            (addToBucket buckets (bucketYear (ep.DataSourceID.take 4) ep.DataSourceID) ep)
            residual := by
        simp only [attachEpisodes, if_pos hp.1, hv]
      rw [hred]
      rcases List.pairwise_cons.mp hpair with ⟨hhead, htail⟩
      refine attachEpisodes_parses_inv rest _ residual
        (fun e he => hS e (List.mem_cons_of_mem _ he)) htail ?_
      intro y bes hmem
      rcases mem_addToBucket hmem with hmem' | ⟨bes₀, rfl, hbes₀⟩
      · rcases hacc y bes hmem' with ⟨h1, h2⟩
        exact ⟨h1, fun e he e' he' => h2 e he e' (List.mem_cons_of_mem _ he')⟩
      · have hbes₀' : bes₀.Pairwise epPairLe ∧ ∀ e ∈ bes₀, ∀ e' ∈ ep :: rest, epPairLe e e' := by
          rcases hbes₀ with h | h
          · exact hacc y bes₀ h
          · subst h; exact ⟨List.Pairwise.nil, by simp⟩
        constructor
        · rw [List.pairwise_append]
          refine ⟨hbes₀'.1, by simp, ?_⟩
          intro a ha b hb
          rw [List.mem_singleton.mp hb]
          exact hbes₀'.2 a ha ep (List.mem_cons_self ep rest)
        · intro e he e' he'
          rcases List.mem_append.mp he with he | he
          · exact hbes₀'.2 e he e' (List.mem_cons_of_mem _ he')
          · rw [List.mem_singleton.mp he]
            exact hhead e' he'

/-- C3 (amended): provided every episode in the organizer's input has a
parseable identifier (length at least 4, numeric leading token), any two
episodes in the same year bucket appear in the order given by lexicographic
comparison of their (year, race) pairs.  (When unparseable identifiers are
mixed in, the comparator — title fallback against pair comparison — is not
transitive and the sort can leave same-bucket episodes out of pair order;
see the counterexample.) -/
theorem addEpisodes_bucket_sorted (eps : List episodeStruct)
    (H : ∀ e ∈ eps, epParses e) :
    ∃ buckets residual, addEpisodes eps = some (buckets, residual) ∧
      ∀ y bes, (y, bes) ∈ buckets → bes.Pairwise epPairLe := by
  have hmem : ∀ e ∈ goSort episodeLess eps, epParses e := by
    intro e he
    exact H e ((goSort_perm episodeLess eps).mem_iff.mp he)
  have hsorted : (goSort episodeLess eps).Pairwise (fun a b => episodeLess b a = false) :=
    @goSort_pairwise episodeStruct episodeLess epParses
      (fun _ _ _ ha hb hc hba hcb => episodeLess_false_trans ha hb hc hba hcb)
      (fun _ _ ha hb => episodeLess_total ha hb) eps H
  have hsorted' : (goSort episodeLess eps).Pairwise epPairLe := by
    refine hsorted.imp_of_mem ?_
    intro a b ha hb hab
    have := episodeLess_eq_pairStrLt (hmem b hb).2 (hmem a ha).2
    rw [this] at hab
    exact hab
  obtain ⟨buckets', hres, hall⟩ :=
    attachEpisodes_parses_inv (goSort episodeLess eps) [] [] hmem hsorted' (by simp)
  exact ⟨buckets', [], hres, hall⟩

/-- C3 counterexample: with two unparseable episodes (titles "A" and "C")
interleaved, the 2005 bucket comes out as [race 03, race 01] although both
identifiers parse and (2005, 01) lexicographically precedes (2005, 03):
the claim's within-bucket pair order is violated.  (Go's `sort.Slice` runs
plain insertion sort at this length, so this is the order the source
produces.) -/
theorem addEpisodes_bucket_order_counterexample :
    addEpisodes [epA, ep0503, epC, ep0501] =
      some ([(("2005").data, [ep0503, ep0501])], [epA, epC]) ∧
    getYearAndRace ep0501.DataSourceID = (("2005").data, ("01").data) ∧
    getYearAndRace ep0503.DataSourceID = (("2005").data, ("03").data) ∧
    pairStrLt (getYearAndRace ep0501.DataSourceID) (getYearAndRace ep0503.DataSourceID) = true := by
  decide

/-- Witness for the amended C3 on an all-parseable episode list. -/
theorem addEpisodes_bucket_sorted_witness :
    (∀ e ∈ [ep0503, ep0501], epParses e) ∧
    ∃ buckets residual, addEpisodes [ep0503, ep0501] = some (buckets, residual) ∧
      ∀ y bes, (y, bes) ∈ buckets → bes.Pairwise epPairLe :=
  ⟨by decide, addEpisodes_bucket_sorted [ep0503, ep0501] (by decide)⟩

/-- C4 counterexample: "/api/team/12" begins with the team prefix and has
length beyond the 10-character prefix, yet `convertIDs` leaves the list
unresolved (its team branch demands a length above 12), although team-name
resolution on the same list would produce ["Ferrari"]. -/
theorem convertIDs_team_length_counterexample :
    convertIDs driverOracle teamOracle [] [] [("/api/team/12").data] =
      ([("/api/team/12").data], [], []) ∧
    (getTeamNames teamOracle [("/api/team/12").data] []).1 = [("Ferrari").data] := by
  decide

/-- C4 (amended): dispatch requires the first identifier to be longer than
12 characters in both branches; under that length bound, a first identifier
with the 12-character driver prefix resolves the list to driver names and
one with the 10-character team prefix resolves it to team names. -/
theorem convertIDs_dispatch (getDriver : GoString → driverStruct)
    (getTeam : GoString → teamStruct)
    (dCache : List (GoString × driverStruct)) (tCache : List (GoString × teamStruct))
    (l0 : GoString) (rest : List GoString) (hlen : 12 < l0.length) :
    (l0.take 12 = ("/api/driver/").data →
      convertIDs getDriver getTeam dCache tCache (l0 :: rest) =
        ((getDriverNames getDriver (l0 :: rest) dCache).1,
         (getDriverNames getDriver (l0 :: rest) dCache).2.1, tCache))
    ∧ (l0.take 10 = ("/api/team/").data →
      convertIDs getDriver getTeam dCache tCache (l0 :: rest) =
        ((getTeamNames getTeam (l0 :: rest) tCache).1, dCache,
         (getTeamNames getTeam (l0 :: rest) tCache).2.1)) := by
  constructor
  · intro h
    simp only [convertIDs]
    split
    · rfl
    · rename_i hcond
      exact absurd ⟨hlen, h⟩ hcond
  · intro h
    have hne : ¬(12 < l0.length ∧ l0.take 12 = ("/api/driver/").data) := by
      rintro ⟨-, hd⟩
      have h10 : l0.take 10 = (("/api/driver/").data : GoString).take 10 := by
        rw [← hd, List.take_take]
        simp
      rw [h] at h10
      exact absurd h10 (by decide)
    simp only [convertIDs]
    split
    · rename_i hcond
      exact absurd hcond hne
    · split
      · rfl
      · rename_i hcond
        exact absurd ⟨hlen, h⟩ hcond

/-- Witness for the amended C4 at a driver identifier of length 15. -/
theorem convertIDs_dispatch_witness :
    12 < (("/api/driver/max").data : GoString).length ∧
    (("/api/driver/max").data : GoString).take 12 = ("/api/driver/").data ∧
    convertIDs driverOracle teamOracle [] [] [("/api/driver/max").data] =
      ((getDriverNames driverOracle [("/api/driver/max").data] []).1,
       (getDriverNames driverOracle [("/api/driver/max").data] []).2.1, []) := by
  refine ⟨by decide, by decide, ?_⟩
  exact (convertIDs_dispatch driverOracle teamOracle [] [] ("/api/driver/max").data []
    (by decide)).1 (by decide)

theorem assocFind_append_some : ∀ {c : List (GoString × β)} {x : GoString} {v : β}
    (p : GoString × β), assocFind c x = some v → assocFind (c ++ [p]) x = some v
  | [], x, v, p, h => by simp [assocFind] at h
  | (k, w) :: c, x, v, p, h => by
      by_cases hk : k = x
      · simp only [assocFind, if_pos hk] at h
        simp only [List.cons_append, assocFind, if_pos hk]
        exact h
      · simp only [assocFind, if_neg hk] at h
        simp only [List.cons_append, assocFind, if_neg hk]
        exact assocFind_append_some p h

theorem assocFind_append_none : ∀ {c : List (GoString × β)} {x : GoString}
    (p : GoString × β), assocFind c x = none →
    assocFind (c ++ [p]) x = if p.1 = x then some p.2 else none
  | [], x, p, _ => by simp [assocFind]
  | (k, w) :: c, x, p, h => by
      by_cases hk : k = x
      · simp only [assocFind, if_pos hk] at h
        cases h
      · simp only [assocFind, if_neg hk] at h
        simp only [List.cons_append, assocFind, if_neg hk]
        exact assocFind_append_none p h

theorem getDriverNamesAux_names (getDriver : GoString → driverStruct)
    (c₀ : List (GoString × driverStruct)) :
    ∀ (lines : List GoString) (c : List (GoString × driverStruct)),
      (∀ x, assocFind c x = assocFind c₀ x ∨
        (assocFind c₀ x = none ∧ assocFind c x = some (getDriver x))) →
      (getDriverNamesAux getDriver lines c).1 = lines.map (resolveDriverName getDriver c₀)
  | [], c, hR => by simp [getDriverNamesAux]
  | id :: rest, c, hR => by
      cases hfind : assocFind c id with
      | some d =>
          simp only [getDriverNamesAux, hfind, List.map_cons]
          have hhead : driverDisplayName d = resolveDriverName getDriver c₀ id := by
            rcases hR id with h | ⟨h0, h1⟩
            · rw [hfind] at h
              simp [resolveDriverName, ← h]
            · rw [hfind] at h1
              simp [resolveDriverName, h0, Option.some.inj h1]
          rw [hhead, getDriverNamesAux_names getDriver c₀ rest c hR]
      | none =>
          simp only [getDriverNamesAux, hfind, List.map_cons]
          have hhead : driverDisplayName (getDriver id) = resolveDriverName getDriver c₀ id := by
            rcases hR id with h | ⟨h0, h1⟩
            · rw [hfind] at h
              simp [resolveDriverName, ← h]
            · rw [hfind] at h1
              cases h1
          rw [hhead]
          refine congrArg _ ?_
          refine getDriverNamesAux_names getDriver c₀ rest _ ?_
          intro x
          by_cases hx : id = x
          · subst hx
            rcases hR id with h | ⟨h0, h1⟩
            · rw [hfind] at h
              refine Or.inr ⟨h.symm, ?_⟩
              rw [assocFind_append_none _ hfind]
              simp
            · rw [hfind] at h1
              cases h1
          · cases hc : assocFind c x with
            | some v =>
                rcases hR x with h | ⟨h0, h1⟩
                · refine Or.inl ?_
                  rw [assocFind_append_some _ hc, ← h, hc]
                · refine Or.inr ⟨h0, ?_⟩
                  rw [assocFind_append_some _ hc, ← hc, h1]
            | none =>
                rcases hR x with h | ⟨h0, h1⟩
                · refine Or.inl ?_
                  rw [assocFind_append_none _ hc]
                  simp only [if_neg hx]
                  rw [← h, hc]
                · rw [hc] at h1
                  cases h1

theorem getDriverNamesAux_cache_mono (getDriver : GoString → driverStruct) :
    ∀ (lines : List GoString) (c : List (GoString × driverStruct)) {x : GoString}
      {v : driverStruct}, assocFind c x = some v →
      assocFind (getDriverNamesAux getDriver lines c).2.1 x = some v
  | [], c, x, v, h => h
  | id :: rest, c, x, v, h => by
      cases hfind : assocFind c id with
      | some d =>
          simp only [getDriverNamesAux, hfind]
          exact getDriverNamesAux_cache_mono getDriver rest c h
      | none =>
          simp only [getDriverNamesAux, hfind]
          exact getDriverNamesAux_cache_mono getDriver rest _ (assocFind_append_some _ h)

theorem getDriverNamesAux_cache_isSome (getDriver : GoString → driverStruct) :
    ∀ (lines : List GoString) (c : List (GoString × driverStruct)) {x : GoString},
      x ∈ lines →
      (assocFind (getDriverNamesAux getDriver lines c).2.1 x).isSome = true
  | [], _, x, hx => by cases hx
  | id :: rest, c, x, hx => by
      cases hfind : assocFind c id with
      | some d =>
          simp only [getDriverNamesAux, hfind]
          rcases List.mem_cons.mp hx with h' | hx'
          · rw [h', getDriverNamesAux_cache_mono getDriver rest c hfind]
            rfl
          · exact getDriverNamesAux_cache_isSome getDriver rest c hx'
      | none =>
          simp only [getDriverNamesAux, hfind]
          rcases List.mem_cons.mp hx with h' | hx'
          · have hnew : assocFind (c ++ [(id, getDriver id)]) id = some (getDriver id) := by
              rw [assocFind_append_none _ hfind]
              simp
            rw [h']
            rw [getDriverNamesAux_cache_mono getDriver rest _ hnew]
            rfl
          · exact getDriverNamesAux_cache_isSome getDriver rest _ hx'

theorem getDriverNamesAux_no_refetch (getDriver : GoString → driverStruct) :
    ∀ (lines : List GoString) (c : List (GoString × driverStruct)) {x : GoString},
      (assocFind c x).isSome = true →
      x ∉ (getDriverNamesAux getDriver lines c).2.2
  | [], c, x, hx => by simp [getDriverNamesAux]
  | id :: rest, c, x, hx => by
      cases hfind : assocFind c id with
      | some d =>
          simp only [getDriverNamesAux, hfind]
          exact getDriverNamesAux_no_refetch getDriver rest c hx
      | none =>
          simp only [getDriverNamesAux, hfind]
          intro hmem
          rcases List.mem_cons.mp hmem with h' | hmem'
          · rw [h', hfind] at hx
            cases hx
          · have hx' : (assocFind (c ++ [(id, getDriver id)]) x).isSome = true := by
              obtain ⟨v, hv⟩ := Option.isSome_iff_exists.mp hx
              rw [assocFind_append_some _ hv]
              rfl
            exact getDriverNamesAux_no_refetch getDriver rest _ hx' hmem'

theorem getDriverNamesAux_fetched_nodup (getDriver : GoString → driverStruct) :
    ∀ (lines : List GoString) (c : List (GoString × driverStruct)),
      (getDriverNamesAux getDriver lines c).2.2.Nodup
  | [], c => by simp [getDriverNamesAux]
  | id :: rest, c => by
      cases hfind : assocFind c id with
      | some d =>
          simp only [getDriverNamesAux, hfind]
          exact getDriverNamesAux_fetched_nodup getDriver rest c
      | none =>
          simp only [getDriverNamesAux, hfind]
          refine List.nodup_cons.mpr ⟨?_, getDriverNamesAux_fetched_nodup getDriver rest _⟩
          have hsome : (assocFind (c ++ [(id, getDriver id)]) id).isSome = true := by
            rw [assocFind_append_none _ hfind]
            simp
          exact getDriverNamesAux_no_refetch getDriver rest _ hsome

theorem goSort_goStrLt_sorted (l : List GoString) :
    (goSort goStrLt l).Pairwise (fun a b => goStrLt b a = false) :=
  @goSort_pairwise GoString goStrLt (fun _ => True)
    (fun _ _ _ _ _ _ hba hcb => goStrLt_false_trans hba hcb)
    (fun a b _ _ => by
      cases h : goStrLt a b with
      | false => exact Or.inl rfl
      | true => exact Or.inr (goStrLt_asymm h)) l (fun _ _ => trivial)

theorem goSort_str_eq_of_perm {l₁ l₂ : List GoString} (h : l₁.Perm l₂) :
    goSort goStrLt l₁ = goSort goStrLt l₂ :=
  @List.eq_of_perm_of_sorted GoString (fun a b => goStrLt b a = false)
    ⟨fun _ _ h1 h2 => goStrLt_connex h2 h1⟩ _ _
    ((goSort_perm _ _).trans (h.trans (goSort_perm _ _).symm))
    (goSort_goStrLt_sorted l₁) (goSort_goStrLt_sorted l₂)

theorem goCount_le_one_of_nodup : ∀ {l : List GoString}, l.Nodup → ∀ a : GoString, l.count a ≤ 1
  | [], _, a => by simp
  | b :: l, h, a => by
      rcases List.nodup_cons.mp h with ⟨hb, hl⟩
      by_cases hba : b = a
      · subst hba
        have h0 : l.count b = 0 := List.count_eq_zero.mpr hb
        simp [List.count_cons, h0]
      · have hne : (b == a) = false := beq_eq_false_iff_ne.mpr hba
        have ih := goCount_le_one_of_nodup hl a
        simp [List.count_cons, hne]
        exact ih

/-- C5: `getDriverNames` returns a lexicographically sorted display-name
list which is invariant under permutation of the identifier list; the
first call fetches each identifier remotely at most once, and a second
sequential call starting from the first call's cache performs no remote
fetch for any identifier the first call processed. -/
theorem getDriverNames_spec (getDriver : GoString → driverStruct)
    (cache : List (GoString × driverStruct)) (lines₁ lines₂ : List GoString)
    (hperm : lines₁.Perm lines₂) (id : GoString) (hid : id ∈ lines₁) :
    (getDriverNames getDriver lines₁ cache).1.Pairwise (fun a b => goStrLt b a = false) ∧
    (getDriverNames getDriver lines₁ cache).1 = (getDriverNames getDriver lines₂ cache).1 ∧
    (getDriverNames getDriver lines₁ cache).2.2.count id ≤ 1 ∧
    (getDriverNames getDriver lines₂
      ((getDriverNames getDriver lines₁ cache).2.1)).2.2.count id = 0 := by
  have hrefl : ∀ x, assocFind cache x = assocFind cache x ∨
      (assocFind cache x = none ∧ assocFind cache x = some (getDriver x)) :=
    fun x => Or.inl rfl
  refine ⟨goSort_goStrLt_sorted _, ?_, ?_, ?_⟩
  · show goSort goStrLt (getDriverNamesAux getDriver lines₁ cache).1 =
      goSort goStrLt (getDriverNamesAux getDriver lines₂ cache).1
    rw [getDriverNamesAux_names getDriver cache lines₁ cache hrefl,
        getDriverNamesAux_names getDriver cache lines₂ cache hrefl]
    exact goSort_str_eq_of_perm (hperm.map _)
  · exact goCount_le_one_of_nodup
      (getDriverNamesAux_fetched_nodup getDriver lines₁ cache) id
  · refine List.count_eq_zero.mpr ?_
    refine getDriverNamesAux_no_refetch getDriver lines₂ _ ?_
    exact getDriverNamesAux_cache_isSome getDriver lines₁ cache hid

/-- Witness for C5 on a concrete one-identifier list. -/
theorem getDriverNames_spec_witness :
    ([("/api/driver/max").data] : List GoString).Perm [("/api/driver/max").data] ∧
    ("/api/driver/max").data ∈ ([("/api/driver/max").data] : List GoString) ∧
    ((getDriverNames driverOracle [("/api/driver/max").data] []).1.Pairwise
        (fun a b => goStrLt b a = false) ∧
      (getDriverNames driverOracle [("/api/driver/max").data] []).1 =
        (getDriverNames driverOracle [("/api/driver/max").data] []).1 ∧
      (getDriverNames driverOracle [("/api/driver/max").data] []).2.2.count
        (("/api/driver/max").data) ≤ 1 ∧
      (getDriverNames driverOracle [("/api/driver/max").data]
        ((getDriverNames driverOracle [("/api/driver/max").data] []).2.1)).2.2.count
          (("/api/driver/max").data) = 0) :=
  ⟨List.Perm.refl _, by decide,
    getDriverNames_spec driverOracle [] [("/api/driver/max").data]
      [("/api/driver/max").data] (List.Perm.refl _) ("/api/driver/max").data (by decide)⟩

/-- C6: a contentless child is NOT always omitted.  For a season whose only
event has zero session occurrences, `getEventNodes` leaves a nil slot and
the season-selection handler attaches every slot without a nil check
(unlike the event branch), so a nil child node is attached to the parent —
the claim (and spec sentence) says it must be omitted. -/
theorem expandSeasonNode_attaches_nil :
    expandSeasonNode emptyEventOracle ⟨("2019").data, GoColor.yellow, true⟩ []
      seasonOneEmptyEvent =
      (⟨("2019").data, GoColor.yellow, true⟩, [none]) := rfl

/-- C7 counterexample: a SEASON expansion yielding zero valid children does
not enter the terminal no-content state: the node stays selectable, its
text gains no suffix and its color does not change (the season branch has
no `hasSessions`-style check). -/
theorem expandSeasonNode_zero_children_counterexample :
    expandSeasonNode emptyEventOracle ⟨("1990").data, GoColor.yellow, true⟩ []
      seasonNoEvents =
      (⟨("1990").data, GoColor.yellow, true⟩, []) := rfl

/-- C7 (amended): an event-node expansion that completes and yields zero
valid session children transitions the node to the terminal no-content
state — red, label suffixed with " - NO CONTENT AVAILABLE", unselectable —
and attaches no children.  Season expansions never enter this state. -/
theorem expandEventNode_no_content (getSession : GoString → sessionStruct)
    (getSessionStreams : GoString → sessionStreamsStruct)
    (node : TreeNodeModel) (children : List SessionNode) (event : eventStruct)
    (sessions : List (Option SessionNode))
    (hs : getSessionNodes getSession getSessionStreams event = some sessions)
    (hempty : (sessions.filterMap id).filter (fun s => 0 < s.children.length) = []) :
    expandEventNode getSession getSessionStreams node children event =
      some (⟨node.text ++ (" - NO CONTENT AVAILABLE").data, GoColor.red, false⟩,
        children) := by
  simp [expandEventNode, hs, hempty]

/-- Witness for the amended C7: one upcoming session, zero valid children,
terminal no-content state. -/
theorem expandEventNode_no_content_witness :
    getSessionNodes upcomingSessionOracle emptyStreamsOracle eventOneUpcoming =
      some [none] ∧
    (([none] : List (Option SessionNode)).filterMap id).filter
      (fun s => 0 < s.children.length) = [] ∧
    expandEventNode upcomingSessionOracle emptyStreamsOracle
      ⟨("Bahrain GP").data, GoColor.white, true⟩ [] eventOneUpcoming =
      some (⟨("Bahrain GP").data ++ (" - NO CONTENT AVAILABLE").data,
        GoColor.red, false⟩, []) :=
  ⟨rfl, rfl, expandEventNode_no_content upcomingSessionOracle emptyStreamsOracle
    ⟨("Bahrain GP").data, GoColor.white, true⟩ [] eventOneUpcoming [none] rfl rfl⟩

theorem substToken_loaded (url dlPath : GoString) (st : DispatchSt) (tok : GoString)
    (h : st.fileLoaded = true) : (substToken url dlPath st tok).2 = st := by
  simp only [substToken, h]
  split <;> rfl

theorem substToken_not_loaded (url dlPath : GoString) (st : DispatchSt) (tok : GoString)
    (h : st.fileLoaded = false) :
    (substToken url dlPath st tok).2 =
      if goContains tok (("$file").data) then
        ⟨true, dlPath, st.downloads + 1⟩ else st := by
  simp only [substToken, h]
  split <;> rfl

theorem substCommand_loaded (url dlPath : GoString) :
    ∀ (cmd : List GoString) (st : DispatchSt), st.fileLoaded = true →
      (substCommand url dlPath st cmd).2 = st
  | [], st, _ => rfl
  | tok :: rest, st, h => by
      simp only [substCommand, substToken_loaded url dlPath st tok h]
      exact substCommand_loaded url dlPath rest st h

theorem substCommand_not_loaded (url dlPath : GoString) :
    ∀ (cmd : List GoString) (st : DispatchSt), st.fileLoaded = false →
      (substCommand url dlPath st cmd).2 =
        if cmd.any (fun t => goContains t (("$file").data)) then
          ⟨true, dlPath, st.downloads + 1⟩ else st
  | [], st, h => by simp [substCommand]
  | tok :: rest, st, h => by
      simp only [substCommand, List.any_cons]
      by_cases hc : goContains tok (("$file").data) = true
      · rw [substToken_not_loaded url dlPath st tok h, if_pos hc,
            substCommand_loaded url dlPath rest _ rfl]
        simp [hc]
      · have hc' : goContains tok (("$file").data) = false := eq_false_of_ne_true hc
        rw [substToken_not_loaded url dlPath st tok h, if_neg hc,
            substCommand_not_loaded url dlPath rest st h]
        simp [hc']

theorem dispatchCommands_loaded (url dlPath : GoString) :
    ∀ (commands : List (List GoString)) (st : DispatchSt), st.fileLoaded = true →
      (dispatchCommands url dlPath st commands).2 = st
  | [], st, _ => rfl
  | cmd :: rest, st, h => by
      simp only [dispatchCommands]
      split
      · exact dispatchCommands_loaded url dlPath rest st h
      · simp only [substCommand_loaded url dlPath cmd st h]
        exact dispatchCommands_loaded url dlPath rest st h

theorem dispatchCommands_not_loaded (url dlPath : GoString) :
    ∀ (commands : List (List GoString)) (st : DispatchSt), st.fileLoaded = false →
      (dispatchCommands url dlPath st commands).2 =
        if commands.any (fun cmd => cmd.any (fun t => goContains t (("$file").data))) then
          ⟨true, dlPath, st.downloads + 1⟩ else st
  | [], st, h => by simp [dispatchCommands]
  | cmd :: rest, st, h => by
      simp only [dispatchCommands, List.any_cons]
      split
      · rename_i hemp
        have hcmd : cmd.any (fun t => goContains t (("$file").data)) = false := by
          rw [List.isEmpty_iff.mp hemp]
          rfl
        rw [dispatchCommands_not_loaded url dlPath rest st h]
        simp [hcmd]
      · by_cases hc : cmd.any (fun t => goContains t (("$file").data)) = true
        · rw [substCommand_not_loaded url dlPath cmd st h, if_pos hc,
              dispatchCommands_loaded url dlPath rest _ rfl]
          simp [hc]
        · have hc' : cmd.any (fun t => goContains t (("$file").data)) = false :=
            eq_false_of_ne_true hc
          rw [substCommand_not_loaded url dlPath cmd st h, if_neg hc,
              dispatchCommands_not_loaded url dlPath rest st h]
          simp [hc']

/-- C9: within one dispatch of a custom-command node, the `$file` asset
download happens exactly once when any token of any command template
contains "$file", and never otherwise: two templates both containing
"$file" trigger one download; a dispatch without "$file" triggers none. -/
theorem runCustomCommand_download_once (url dlPath : GoString)
    (commands : List (List GoString)) :
    (runCustomCommand url dlPath commands).2.downloads =
      if commands.any (fun cmd => cmd.any (fun t => goContains t (("$file").data)))
      then 1 else 0 := by
  show (dispatchCommands url dlPath ⟨false, [], 0⟩ commands).2.downloads = _
  rw [dispatchCommands_not_loaded url dlPath commands ⟨false, [], 0⟩ rfl]
  cases h : commands.any (fun cmd => cmd.any (fun t => goContains t (("$file").data))) with
  | true => simp
  | false => simp

theorem workerSeq_length : ∀ (k n : Nat), (workerSeq k n).length = n + 1
  | _, 0 => rfl
  | k, n + 1 => by simp [workerSeq, workerSeq_length (k + 1) n]

theorem postDoneFull_done : ∀ (t : List ExpAction) (n : Nat),
    t.filter isWorkerAct = [] → postDoneFull n n true t = true
  | [], _, _ => rfl
  | .attach i :: t, n, h => by simp [List.filter, isWorkerAct] at h
  | .markDone :: t, n, h => by simp [List.filter, isWorkerAct] at h
  | .draw :: t, n, h => by
      simp only [postDoneFull, Bool.not_true, Bool.false_or, beq_self_eq_true,
        Bool.true_and]
      refine postDoneFull_done t n ?_
      simpa [List.filter, isWorkerAct] using h

theorem postDoneFull_pending : ∀ (t : List ExpAction) (n k m : Nat),
    k + m = n → t.filter isWorkerAct = workerSeq k m →
    postDoneFull n k false t = true
  | [], _, _, _, _, _ => rfl
  | .draw :: t, n, k, m, hkm, h => by
      simp only [postDoneFull, Bool.not_false, Bool.true_or, Bool.true_and]
      refine postDoneFull_pending t n k m hkm ?_
      simpa [List.filter, isWorkerAct] using h
  | .attach i :: t, n, k, m, hkm, h => by
      cases m with
      | zero =>
          simp [List.filter, isWorkerAct, workerSeq] at h
      | succ m' =>
          simp only [List.filter, isWorkerAct, workerSeq] at h
          simp only [postDoneFull]
          exact postDoneFull_pending t n (k + 1) m' (by omega) (List.cons.inj h).2
  | .markDone :: t, n, k, m, hkm, h => by
      cases m with
      | succ m' =>
          simp [List.filter, isWorkerAct, workerSeq] at h
      | zero =>
          have hk : k = n := by omega
          rw [hk]
          simp only [List.filter, isWorkerAct, workerSeq] at h
          simp only [postDoneFull]
          exact postDoneFull_done t n (List.cons.inj h).2

/-- C8 counterexample: with two children, the valid expansion trace
attach 0, draw, attach 1, markDone lets the observer's draw see exactly
one attached child — a strict non-empty subset of the final child set, so
visibility is not all-or-nothing.  (The blink goroutine draws every 200ms
while the attach loop adds children one `AddChild` call at a time, with no
synchronization between the two.) -/
theorem expansion_partial_visibility_counterexample :
    isExpansionTrace 2 [.attach 0, .draw, .attach 1, .markDone] ∧
    batchVisible 2 0 [.attach 0, .draw, .attach 1, .markDone] = false := by
  exact ⟨by decide, by decide⟩

/-- C8 (amended): all child fetches are joined before any attach (the
worker sequence attaches only after the `wg.Wait` join, mirroring the
source), every valid trace performs exactly the n attaches plus the done
mark, and every draw after the done mark observes the complete child set;
all-or-nothing visibility during the attach loop itself does not hold (see
the counterexample). -/
theorem expansion_trace_complete (n : Nat) (t : List ExpAction)
    (h : isExpansionTrace n t) :
    (t.filter isWorkerAct).length = n + 1 ∧ postDoneFull n 0 false t = true := by
  constructor
  · rw [h]
    exact workerSeq_length 0 n
  · exact postDoneFull_pending t n 0 n (by omega) h

/-- Witness for the amended C8 at a concrete one-child trace. -/
theorem expansion_trace_complete_witness :
    isExpansionTrace 1 [.attach 0, .markDone, .draw] ∧
    ((([.attach 0, .markDone, .draw] : List ExpAction).filter isWorkerAct).length = 1 + 1 ∧
      postDoneFull 1 0 false [.attach 0, .markDone, .draw] = true) :=
  ⟨by decide, expansion_trace_complete 1 [.attach 0, .markDone, .draw] (by decide)⟩
